import Mathlib

/-!
Verification development for the category-aware vector retrieval engine
(Microsoft-Docs-RAG-LLM).  The Python sources are shallowly embedded:

* `src/category_mappings.py` — static tables and `get_categories_for_query`;
* `src/generate_embeddings.py` — `Embedder.chunk_document`, `Embedder.create_index`;
* `src/model.py` — `retrieve_documents`, `search_by_category`, `search_general`;
* `src/index.py` — `IndexSearcher.search`.

Modelling conventions: Python floats are modelled as real numbers with exact
arithmetic; strings are Lean `String`s and, where character-level reasoning is
needed, their underlying `List Char`; the external collaborators (the sentence
transformer `encode`, the FAISS index `search`) are black-box fields of an
environment record, while FAISS `reconstruct` on a flat index is modelled by
positional lookup in the stored-vector list (out-of-range positions raise).
The dynamically-typed values flowing through the general-search loop are
modelled by an explicit `PyVal` type so that Python's `tuple == int` and
`tuple + int` semantics are represented faithfully.
-/

namespace MSRag

/-- Errors a modelled Python operation can raise. -/
inductive PyErr where
  | typeError
  | outOfRange
deriving DecidableEq

/-- Dynamically-typed Python values appearing in the general-search loop:
integers, floats, and the 2-tuples produced by `zip`/`enumerate`. -/
inductive PyVal where
  | int (n : ℤ)
  | float (x : ℝ)
  | tup (a b : PyVal)

open scoped Classical in
/-- Python `==` on the values above.  An `int` and a `float` compare
numerically; a tuple never equals a number (Python returns `False` for
`==` between values of unrelated types). -/
noncomputable def pyEq : PyVal → PyVal → Bool
  | .int a, .int b => decide (a = b)
  | .int a, .float b => decide ((a : ℝ) = b)
  | .float a, .int b => decide (a = (b : ℝ))
  | .float a, .float b => decide (a = b)
  | .tup a b, .tup c d => pyEq a c && pyEq b d
  | _, _ => false

/-- Python `+` on the values above.  Adding a number to a tuple raises
`TypeError`.  (Tuple-tuple concatenation is not reached by the embedded
code and is conservatively mapped to the same error.) -/
def pyAdd : PyVal → PyVal → Except PyErr PyVal
  | .int a, .int b => .ok (.int (a + b))
  | .int a, .float b => .ok (.float ((a : ℝ) + b))
  | .float a, .int b => .ok (.float (a + (b : ℝ)))
  | .float a, .float b => .ok (.float (a + b))
  | _, _ => .error .typeError

/-- Python `float(-)` coercion: numbers coerce, a tuple raises `TypeError`. -/
def pyFloat : PyVal → Except PyErr ℝ
  | .int n => .ok (n : ℝ)
  | .float x => .ok x
  | .tup _ _ => .error .typeError

/-! ## Vector arithmetic (numpy calls in the sources) -/

/-- Sum of squares of a vector's entries (the square of `np.linalg.norm`). -/
def sumsq (v : List ℝ) : ℝ := (v.map fun x => x * x).sum

/-- Model of `np.linalg.norm(v)`: the Euclidean norm. -/
noncomputable def pyNorm (v : List ℝ) : ℝ := Real.sqrt (sumsq v)

/-- Model of `v / np.linalg.norm(v)`: entrywise division by the norm. -/
noncomputable def pyNormalize (v : List ℝ) : List ℝ := v.map fun x => x / pyNorm v

/-- Model of `np.dot` on two vectors of the same length. -/
def dotL (v w : List ℝ) : ℝ := (List.zipWith (fun a b => a * b) v w).sum

/-! ## Data model and environment -/

/-- A row of the `documents` table / an entry of `document_store.json` as the
retrieval code reads it. -/
structure Doc where
  title : String
  category : String
  content : String
deriving DecidableEq

/-- A result dict built by `search_by_category` / `search_general` in
`src/model.py` (lines 117-122 and 151-156): the keys are exactly
`similarity_score`, `title`, `category`, `content` — there is no rank key. -/
structure MDoc where
  similarity_score : ℝ
  title : String
  category : String
  content : String

/-- A result dict built by `IndexSearcher.search` in `src/index.py`
(lines 33-38): the stored document plus `search_score` and `rank`. -/
structure ISRes where
  doc : Doc
  search_score : ℝ
  rank : ℕ

/-- The process state the retrieval functions read: the documents table in
rowid order, the FAISS index's stored vectors in insertion order, and the two
external black boxes — the FAISS `index.search` call and the sentence
transformer `embedder.encode` on a single text. -/
structure Env where
  db : List Doc
  indexVecs : List (List ℝ)
  indexSearch : List ℝ → ℕ → List ℝ × List ℤ
  embed : String → List ℝ

/-- Model of FAISS `index.reconstruct(i)` on the flat index: the stored
vector at slot `i`, raising for a position at or beyond `ntotal`. -/
def reconstruct (env : Env) (i : ℕ) : Except PyErr (List ℝ) :=
  match env.indexVecs[i]? with
  | some v => .ok v
  | none => .error .outOfRange

/-! ## Category router (`src/category_mappings.py`) -/

/-- The static group-to-member-tags table `CATEGORY_GROUPS`
(`src/category_mappings.py` lines 1-76). -/
def CATEGORY_GROUPS : List (String × List String) :=
  [("power_platform",
    ["powerapps-overview", "power-fx", "maker", "connect-data", "transform-model",
     "create-reports", "collaborate-share", "alm", "developer", "guidance",
     "copilot", "flow-types", "regions-overview", "get-started-logic-flow",
     "run-scheduled-tasks", "desktop-flows", "process-mining-overview",
     "introduction", "release-updates", "capabilities"]),
   ("power_bi",
    ["power-bi-overview", "service-admin-purchasing-power-bi-pro", "create-reports",
     "collaborate-share", "consumer", "desktop", "paginated-reports-report-builder-power-bi",
     "service-self-service-signup-for-power-bi", "service-admin-power-bi-security",
     "power-bi-embedded", "service-collaborate-power-bi-workspace", "trigger-flow-powerbi-report",
     "service-admin-administering-power-bi-in-your-organization", "report-server",
     "paginated-reports", "service-basic-concepts", "service-dashboards", "service-share-dashboards"]),
   ("power_automate",
    ["flow-types", "get-started-logic-flow", "run-scheduled-tasks", "desktop-flows",
     "all-assigned-must-approve", "faqs-action-suggestions-power-automate-desktop",
     "process-mining-overview", "minit", "automation-center-overview", "approvals-app-api",
     "create-instant-flows", "modern-approvals", "workflow-processes", "create-flow-solution"]),
   ("azure_core",
    ["azure", "fundamentals", "core", "app-service", "azure-functions", "virtual-machines",
     "storage", "azure-resource-manager", "automation", "governance", "networking",
     "security", "azure-monitor", "cost-management-billing", "azure-portal"]),
   ("azure_data",
    ["databricks", "synapse-analytics", "data-factory", "cosmos-db", "sql-database",
     "azure-sql", "data-explorer", "data-share", "data-lake-analytics", "hdinsight",
     "azure-sql-edge", "analytics-platform-system", "big-data-cluster"]),
   ("azure_ai",
    ["ai-services", "machine-learning", "ai", "cognitive-services", "ai-foundry",
     "ai-studio", "azure-video-indexer", "bot-service", "applied-ai-services"]),
   ("development",
    ["csharp", "dotnet", "aspire", "orleans", "fsharp", "visual-basic", "python",
     "javascript", "java", "go", "devops", "azure-devops", "ide", "debugger",
     "test", "deployment", "version-control"]),
   ("database",
    ["sql-server", "azure-sql", "database-engine", "analysis-services",
     "integration-services", "reporting-services", "ssms", "mysql", "postgresql",
     "mariadb", "cosmos-db", "synapse-analytics", "t-sql", "relational-databases"]),
   ("microsoft_365",
    ["teams", "outlook-calendar-concept-overview", "outlook-mail-concept-overview",
     "sharepoint-concept-overview", "onedrive-concept-overview", "excel-concept-overview",
     "teams-concept-overview", "planner-concept-overview"]),
   ("security_compliance",
    ["security", "compliance", "active-directory", "sentinel", "defender-for-cloud",
     "information-protection", "key-vault", "security-center", "gdpr-dsr-summary",
     "privacy-dsr-summary"])]

/-- The static keyword-to-group table `QUERY_KEYWORDS`
(`src/category_mappings.py` lines 78-176), in dict insertion order. -/
def QUERY_KEYWORDS : List (String × String) :=
  [("powerfx", "power_platform"), ("power fx", "power_platform"),
   ("power platform", "power_platform"), ("powerapps", "power_platform"),
   ("power apps", "power_platform"), ("canvas app", "power_platform"),
   ("model driven", "power_platform"), ("dataverse", "power_platform"),
   ("randbetween", "power_platform"), ("rand", "power_platform"),
   ("vlookup", "power_platform"), ("if function", "power_platform"),
   ("sum function", "power_platform"), ("countif", "power_platform"),
   ("concatenate", "power_platform"),
   ("power automate", "power_automate"), ("flow", "power_automate"),
   ("workflow", "power_automate"), ("approval", "power_automate"),
   ("automate", "power_automate"), ("trigger", "power_automate"),
   ("action", "power_automate"), ("connector", "power_automate"),
   ("desktop flow", "power_automate"), ("process mining", "power_automate"),
   ("rpa", "power_automate"),
   ("power bi", "power_bi"), ("powerbi", "power_bi"), ("dashboard", "power_bi"),
   ("report", "power_bi"), ("visualization", "power_bi"), ("dataset", "power_bi"),
   ("dax", "power_bi"), ("pbix", "power_bi"),
   ("azure data factory", "azure_data"), ("data factory", "azure_data"),
   ("adf", "azure_data"), ("pipeline", "azure_data"), ("databricks", "azure_data"),
   ("synapse", "azure_data"), ("cosmos db", "azure_data"),
   ("sql database", "database"), ("azure sql", "database"),
   ("azure ai", "azure_ai"), ("cognitive services", "azure_ai"),
   ("machine learning", "azure_ai"), ("bot framework", "azure_ai"),
   ("luis", "azure_ai"), ("qna maker", "azure_ai"),
   ("azure functions", "azure_core"), ("app service", "azure_core"),
   ("virtual machine", "azure_core"), ("storage account", "azure_core"),
   ("resource group", "azure_core"), ("subscription", "azure_core"),
   ("teams", "microsoft_365"), ("sharepoint", "microsoft_365"),
   ("onedrive", "microsoft_365"), ("outlook", "microsoft_365"),
   ("excel", "microsoft_365"), ("word", "microsoft_365"),
   ("powerpoint", "microsoft_365"),
   ("c#", "development"), ("csharp", "development"), (".net", "development"),
   ("dotnet", "development"), ("visual studio", "development"),
   ("azure devops", "development"), ("git", "development"),
   ("python", "development"), ("javascript", "development"),
   ("azure ad", "security_compliance"), ("active directory", "security_compliance"),
   ("authentication", "security_compliance"), ("authorization", "security_compliance"),
   ("compliance", "security_compliance"), ("gdpr", "security_compliance"),
   ("security", "security_compliance")]

/-- Model of Python `str.lower()` (per-character lowercasing; the tables and
test queries are ASCII). -/
def pyLower (s : String) : String := String.mk (s.data.map Char.toLower)

/-- Does the character list `s` start with `p`? -/
def startsWith : List Char → List Char → Bool
  | _, [] => true
  | [], _ :: _ => false
  | c :: cs, d :: ds => c == d && startsWith cs ds

/-- Python `p in s` on strings: `p` occurs as a contiguous substring of `s`. -/
def containsSub : List Char → List Char → Bool
  | [], p => startsWith [] p
  | c :: cs, p => startsWith (c :: cs) p || containsSub cs p

/-- Model of `get_categories_for_query` (`src/category_mappings.py`
lines 178-195): lower-case the query, collect every group whose keyword is a
substring of the lowered query, expand each group through `CATEGORY_GROUPS`
(`if group in CATEGORY_GROUPS` is the `lookup`; a missing group contributes
nothing), and return the deduplicated union — Python's `list(set(...))` and
the intermediate `set` of groups are modelled by the resulting `Finset`. -/
def get_categories_for_query (query : String) : Finset String :=
  let query_lower := pyLower query
  let relevant_groups :=
    (QUERY_KEYWORDS.filter fun kg => containsSub query_lower.data kg.1.data).map Prod.snd
  ((relevant_groups.map fun g => ((CATEGORY_GROUPS.lookup g).getD [])).flatten).toFinset

/-! ## Chunker (`src/generate_embeddings.py`, `Embedder.chunk_document`) -/

/-- Emit the word accumulated so far (reversed), if any; the helper behind
Python `str.split()`'s "drop empty pieces" behaviour. -/
def flushAcc (acc : List Char) : List (List Char) :=
  if acc.isEmpty then [] else [acc.reverse]

/-- Worker for `pySplit`: walk the characters, accumulating the current word
(reversed) and flushing it at whitespace. -/
def pySplitAux : List Char → List Char → List (List Char)
  | [], acc => flushAcc acc
  | c :: cs, acc =>
    if c.isWhitespace then flushAcc acc ++ pySplitAux cs [] else pySplitAux cs (c :: acc)

/-- Model of Python `content.split()`: split on whitespace runs, dropping
empty pieces. -/
def pySplit (s : List Char) : List (List Char) := pySplitAux s []

/-- Consecutive non-overlapping windows of `m` elements (the last possibly
shorter): the loop `for i in range(0, len(words), max_words)` with slices
`words[i:i+max_words]`.  Python raises `ValueError` for `max_words = 0`;
that case (never exercised: the claims assume a positive window) returns
`[]` here. -/
def chunkWords (m : ℕ) : List α → List (List α)
  | [] => []
  | w :: ws =>
    if m = 0 then [] else (w :: ws).take m :: chunkWords m ((w :: ws).drop m)
termination_by l => l.length
decreasing_by simp; omega

/-- Model of `" ".join(words)`: words separated by single spaces. -/
def joinWords : List (List Char) → List Char
  | [] => []
  | [w] => w
  | w :: ws => w ++ (' ' :: joinWords ws)

/-- Model of `Embedder.chunk_document` (`src/generate_embeddings.py`
lines 89-100): at most `max_words` words — return the whole content as the
single chunk; otherwise the space-rejoined `max_words`-word windows. -/
def chunk_document (content : String) (max_words : ℕ) : List String :=
  let words := pySplit content.data
  if words.length ≤ max_words then [content]
  else (chunkWords max_words words).map fun ws => String.mk (joinWords ws)

/-- Model of `Embedder.create_index` (`src/generate_embeddings.py`
lines 148-162): L2-normalize each embedding row, then add them to the flat
inner-product index in order; the index's stored-vector list. -/
noncomputable def create_index (embeddings : List (List ℝ)) : List (List ℝ) :=
  embeddings.map pyNormalize

/-! ## Retrieval engine (`src/model.py`) -/

/-- The normalized query embedding `embedder.encode([query]) / np.linalg.norm(...)`
computed identically in `search_by_category` (lines 105-106) and
`search_general` (lines 134-135) of `src/model.py`. -/
noncomputable def query_embedding (env : Env) (query : String) : List ℝ :=
  pyNormalize (env.embed query)

/-- Rows of the documents table paired with `rowid - 1` (the SQL
`SELECT rowid-1 as faiss_idx, * FROM documents`): position `i` in the list is
rowid `i + 1`, hence `faiss_idx = i`, counting from `start`. -/
def enumDocs (start : ℕ) : List Doc → List (ℕ × Doc)
  | [] => []
  | d :: ds => (start, d) :: enumDocs (start + 1) ds

/-- The candidate rows of `search_by_category`: every document whose
`category` is in the routed set, with its derived FAISS position
(`src/model.py` lines 90-96). -/
def categoryDocs (env : Env) (categories : Finset String) : List (ℕ × Doc) :=
  (enumDocs 0 env.db).filter fun p => p.2.category ∈ categories

/-- The per-candidate loop of `search_by_category` (`src/model.py`
lines 108-125): reconstruct the candidate's vector from the index, normalize
it and take the dot product with the normalized query; any exception
(an unreconstructable position) skips the candidate (`except ... continue`). -/
noncomputable def scoreDocs (env : Env) (qv : List ℝ) : List (ℕ × Doc) → List MDoc
  | [] => []
  | (i, d) :: rest =>
    match reconstruct env i with
    | .ok doc_embedding =>
      { similarity_score := dotL qv (pyNormalize doc_embedding),
        title := d.title, category := d.category, content := d.content } :: scoreDocs env qv rest
    | .error _ => scoreDocs env qv rest

open scoped Classical in
/-- Stable descending insertion for `pySortDesc`: an element moves before the
first strictly smaller score, so equal scores keep their original order. -/
noncomputable def pyInsertDesc (x : MDoc) : List MDoc → List MDoc
  | [] => [x]
  | y :: ys =>
    if y.similarity_score < x.similarity_score then x :: y :: ys else y :: pyInsertDesc x ys

/-- Model of Python's stable `list.sort(key=lambda x: x['similarity_score'],
reverse=True)` (`src/model.py` line 128). -/
noncomputable def pySortDesc : List MDoc → List MDoc
  | [] => []
  | x :: xs => pyInsertDesc x (pySortDesc xs)

/-- Model of `search_by_category` (`src/model.py` lines 81-129): empty
category set or no matching rows return `[]`; otherwise the candidates are
scored, sorted by descending similarity, and the top `top_k` returned. -/
noncomputable def search_by_category (env : Env) (query : String)
    (categories : Finset String) (top_k : ℕ) : List MDoc :=
  if categories = ∅ then []
  else
    let category_docs := categoryDocs env categories
    if category_docs = [] then []
    else (pySortDesc (scoreDocs env (query_embedding env query) category_docs)).take top_k

/-- Model of the SQLite lookup `SELECT * FROM documents WHERE rowid = ?`
with a dynamically-typed parameter: an integer rowid `n` (1-based) returns
the row at position `n - 1`; a non-integer parameter matches no row. -/
def dbRowid (db : List Doc) : PyVal → Option Doc
  | .int n => if 1 ≤ n then db[(n - 1).toNat]? else none
  | _ => none

/-- The hydration loop of `search_general` (`src/model.py` lines 143-156).
The Python header is `for (similarity, idx) in enumerate(zip(similarities[0],
indices[0]))`, so each element handed to this loop is the pair
`(counter, (similarity, index))` and the destructuring binds `similarity` to
the integer counter and `idx` to the `(similarity, index)` tuple.  The body
tests `idx == -1` (`continue` on equality), evaluates `idx + 1` as the rowid
parameter, and appends a result dict with `float(similarity)` for every row
found. -/
noncomputable def generalLoop (db : List Doc) :
    List (PyVal × PyVal) → List MDoc → Except PyErr (List MDoc)
  | [], acc => .ok acc.reverse
  | (similarity, idx) :: rest, acc =>
    if pyEq idx (.int (-1)) then generalLoop db rest acc
    else
      match pyAdd idx (.int 1) with
      | .error e => .error e
      | .ok rowid =>
        match dbRowid db rowid with
        | some doc =>
          match pyFloat similarity with
          | .error e => .error e
          | .ok x =>
            generalLoop db rest
              ({ similarity_score := x, title := doc.title,
                 category := doc.category, content := doc.content } :: acc)
        | none => generalLoop db rest acc

/-- Model of `search_general` (`src/model.py` lines 131-159): embed and
normalize the query, call the index's `search`, and run the hydration loop
over `enumerate(zip(similarities[0], indices[0]))`. -/
noncomputable def search_general (env : Env) (query : String) (top_k : ℕ) :
    Except PyErr (List MDoc) :=
  let qv := query_embedding env query
  let res := env.indexSearch qv top_k
  generalLoop env.db
    (((List.zip res.1 res.2).enum).map fun p =>
      (PyVal.int (p.1 : ℤ), PyVal.tup (.float p.2.1) (.int p.2.2))) []

open scoped Classical in
/-- Model of `retrieve_documents` (`src/model.py` lines 63-79): route the
query; with a non-empty category set run the scoped search and return its
results when the top result's similarity is strictly above `0.4`
(`docs[0].get('similarity_score', 0) > 0.4`); otherwise fall back to the
general search. -/
noncomputable def retrieve_documents (env : Env) (query : String) (top_k : ℕ) :
    Except PyErr (List MDoc) :=
  let target_categories := get_categories_for_query query
  if target_categories = ∅ then search_general env query top_k
  else
    let docs := search_by_category env query target_categories top_k
    match docs.head? with
    | some d =>
      if d.similarity_score > 0.4 then .ok docs else search_general env query top_k
    | none => search_general env query top_k

/-! ## `IndexSearcher.search` (`src/index.py`) -/

/-- The query embedding `self.embedder.encode([query])` of
`IndexSearcher.search` (`src/index.py` line 24): handed to the index search
on line 27 as-is — no L2 normalization happens in this path. -/
def IS_query_embedding (env : Env) (query : String) : List ℝ := env.embed query

/-- The result loop of `IndexSearcher.search` (`src/index.py` lines 30-41):
`for i, (idx, distance) in enumerate(zip(indices[0], distances[0]))` — an
index inside the document store yields a result with
`search_score = 1.0 - distance` and `rank = i + 1`; an invalid index is
skipped with a warning print. -/
def isLoop (store : List Doc) : List (ℕ × (ℤ × ℝ)) → List ISRes
  | [] => []
  | (i, (idx, distance)) :: rest =>
    if h : 0 ≤ idx ∧ idx.toNat < store.length then
      { doc := store.get ⟨idx.toNat, h.2⟩, search_score := 1 - distance, rank := i + 1 }
        :: isLoop store rest
    else isLoop store rest

/-- Model of `IndexSearcher.search` (`src/index.py` lines 22-42): encode the
query (without normalizing), search the index, and hydrate each valid
returned position from the document store. -/
def IndexSearcher_search (env : Env) (query : String) (top_k : ℕ) : List ISRes :=
  let qe := IS_query_embedding env query
  let res := env.indexSearch qe top_k
  isLoop env.db ((List.zip res.2 res.1).enum)

/-! ## Concrete inputs used by witnesses and counterexamples -/

/-- A one-row corpus whose document carries the `power_automate` member tag
`flow-types`, so the query "flow" routes to it. -/
def docA : Doc := ⟨"t", "flow-types", "body"⟩

/-- A document appended behind the last indexed vector (its derived FAISS
position is out of range). -/
def docBad : Doc := ⟨"x", "flow-types", "extra"⟩

/-- The scored result `search_by_category` produces for `docA` when query and
stored vector coincide. -/
noncomputable def mdocA : MDoc := ⟨1, "t", "flow-types", "body"⟩

/-- Environment where the scoped search scores `docA` at similarity `1`. -/
noncomputable def envA : Env :=
  ⟨[docA], [[1, 0, 0, 0]], fun _ _ => ([], []), fun _ => [1, 0, 0, 0]⟩

/-- Environment where the scoped search scores `docA` at similarity exactly
`2/5 = 0.4`: the stored unit vector has inner product `2/5` with the unit
query embedding. -/
noncomputable def envB : Env :=
  ⟨[docA], [[2 / 5, 4 / 5, 2 / 5, 1 / 5]], fun _ _ => ([], []), fun _ => [1, 0, 0, 0]⟩

/-- Environment with one document and one indexed vector, used to append a
document whose position exceeds the vector count. -/
noncomputable def envC : Env :=
  ⟨[docA], [[1, 0, 0, 0]], fun _ _ => ([], []), fun _ => [1, 0, 0, 0]⟩

/-- Environment whose index search reports distance `-2` for position `0`. -/
noncomputable def envD : Env :=
  ⟨[docA], [], fun _ _ => ([-2], [0]), fun _ => [3, 4]⟩

/-- Environment whose index search returns one hit: similarity `0.9` at
position `0`, with a matching corpus row. -/
noncomputable def envE : Env :=
  ⟨[docA], [[1, 0, 0, 0]], fun _ _ => ([0.9], [0]), fun _ => [1, 0, 0, 0]⟩

/-- Environment whose index search returns position `5` — a position with no
corpus row in the one-row table — followed by the valid position `0`. -/
noncomputable def envF : Env :=
  ⟨[docA], [[1, 0, 0, 0]], fun _ _ => ([0.7, 0.6], [5, 0]), fun _ => [1, 0, 0, 0]⟩

/-- Environment whose embedder returns the raw vector `[3, 4]` of norm `5`. -/
noncomputable def envG : Env :=
  ⟨[], [], fun _ _ => ([], []), fun _ => [3, 4]⟩

/-- Environment with a unit-norm query embedding, for the normalization
witness. -/
noncomputable def envH : Env :=
  ⟨[], [], fun _ _ => ([], []), fun _ => [1, 0, 0, 0]⟩

/-- Environment whose index search reports distance `0.5` for position `0`. -/
noncomputable def envJ : Env :=
  ⟨[docA], [[1, 0, 0, 0]], fun _ _ => ([0.5], [0]), fun _ => [1, 0, 0, 0]⟩

/-! ## Vector arithmetic lemmas -/

@[simp] theorem sumsq_nil : sumsq [] = 0 := rfl

@[simp] theorem sumsq_cons (x : ℝ) (v : List ℝ) : sumsq (x :: v) = x * x + sumsq v := by
  simp [sumsq]

theorem sumsq_nonneg (v : List ℝ) : 0 ≤ sumsq v := by
  induction v with
  | nil => simp
  | cons x v ih => simpa using add_nonneg (mul_self_nonneg x) ih

@[simp] theorem dotL_nil_left (w : List ℝ) : dotL [] w = 0 := by simp [dotL]

@[simp] theorem dotL_nil_right (v : List ℝ) : dotL v [] = 0 := by simp [dotL]

@[simp] theorem dotL_cons (a b : ℝ) (v w : List ℝ) :
    dotL (a :: v) (b :: w) = a * b + dotL v w := by
  simp [dotL]

theorem sumsq_map_div (v : List ℝ) (c : ℝ) :
    sumsq (v.map fun x => x / c) = sumsq v / (c * c) := by
  induction v with
  | nil => simp
  | cons x v ih =>
    simp only [List.map_cons, sumsq_cons, ih, div_mul_div_comm]
    rw [div_add_div_same]

theorem pyNorm_mul_self (v : List ℝ) : pyNorm v * pyNorm v = sumsq v :=
  Real.mul_self_sqrt (sumsq_nonneg v)

/-- Normalizing a vector of nonzero norm yields a unit vector (squared norm
one). -/
theorem sumsq_pyNormalize (v : List ℝ) (h : sumsq v ≠ 0) :
    sumsq (pyNormalize v) = 1 := by
  unfold pyNormalize
  rw [sumsq_map_div, pyNorm_mul_self, div_self h]

theorem dotL_map_div (v w : List ℝ) (c e : ℝ) :
    dotL (v.map fun x => x / c) (w.map fun x => x / e) = dotL v w / (c * e) := by
  induction v generalizing w with
  | nil => simp
  | cons a v ih =>
    cases w with
    | nil => simp
    | cons b w =>
      simp only [List.map_cons, dotL_cons, ih, div_mul_div_comm]
      rw [div_add_div_same]

/-- Cauchy–Schwarz for `dotL`/`sumsq`, by induction on the lists. -/
theorem dotL_sq_le (v w : List ℝ) : dotL v w ^ 2 ≤ sumsq v * sumsq w := by
  induction v generalizing w with
  | nil => simp
  | cons a v ih =>
    cases w with
    | nil => simp [mul_nonneg (add_nonneg (mul_self_nonneg a) (sumsq_nonneg v))]
    | cons b w =>
      have hP := sumsq_nonneg v
      have hQ := sumsq_nonneg w
      have h := ih w
      simp only [dotL_cons, sumsq_cons]
      rcases eq_or_lt_of_le hQ with hQ0 | hQ'
      · have h2 : dotL v w ^ 2 ≤ 0 := by rw [← hQ0] at h; simpa using h
        have hd : dotL v w = 0 :=
          pow_eq_zero_iff (n := 2) (by norm_num) |>.mp (le_antisymm h2 (sq_nonneg _))
        rw [hd, ← hQ0]
        nlinarith [mul_nonneg hP (mul_self_nonneg b)]
      · nlinarith [sq_nonneg (a * sumsq w - b * dotL v w),
          mul_nonneg (sub_nonneg.mpr h) (add_nonneg (mul_self_nonneg b) hQ), hQ']

/-- The dot product of two normalized vectors of nonzero norm lies in
`[-1, 1]`. -/
theorem dotL_normalize_mem_Icc (v w : List ℝ) (hv : sumsq v ≠ 0) (hw : sumsq w ≠ 0) :
    -1 ≤ dotL (pyNormalize v) (pyNormalize w) ∧ dotL (pyNormalize v) (pyNormalize w) ≤ 1 := by
  have hsq : dotL (pyNormalize v) (pyNormalize w) ^ 2 ≤ 1 := by
    unfold pyNormalize
    rw [dotL_map_div]
    have hvw : 0 < sumsq v * sumsq w :=
      lt_of_le_of_ne (mul_nonneg (sumsq_nonneg v) (sumsq_nonneg w))
        (by exact fun hvw => (mul_ne_zero hv hw) hvw.symm)
    have hne : pyNorm v * pyNorm w ≠ 0 := by
      have : (pyNorm v * pyNorm w) * (pyNorm v * pyNorm w) = sumsq v * sumsq w := by
        rw [show (pyNorm v * pyNorm w) * (pyNorm v * pyNorm w)
              = (pyNorm v * pyNorm v) * (pyNorm w * pyNorm w) by ring,
          pyNorm_mul_self, pyNorm_mul_self]
      intro h0
      rw [h0, mul_zero] at this
      exact hvw.ne this
    rw [div_pow, sq (pyNorm v * pyNorm w),
      show (pyNorm v * pyNorm w) * (pyNorm v * pyNorm w)
            = (pyNorm v * pyNorm v) * (pyNorm w * pyNorm w) by ring,
      pyNorm_mul_self, pyNorm_mul_self, div_le_one hvw]
    exact dotL_sq_le v w
  have := (sq_le_one_iff_abs_le_one _).mp hsq
  exact abs_le.mp this

/-! ## Category router lemmas -/

theorem lookup_mem {α β : Type} [BEq α] [LawfulBEq α] {l : List (α × β)} {k : α} {b : β}
    (h : l.lookup k = some b) : (k, b) ∈ l := by
  induction l with
  | nil => simp [List.lookup] at h
  | cons p l ih =>
    obtain ⟨k', b'⟩ := p
    rw [List.lookup] at h
    by_cases hk : (k == k') = true
    · rw [hk] at h
      obtain rfl : b' = b := by simpa using h
      obtain rfl : k = k' := by simpa using hk
      exact List.mem_cons_self _ _
    · rw [Bool.not_eq_true] at hk
      rw [hk] at h
      exact List.mem_cons_of_mem _ (ih h)

theorem lookup_eq_of_mem_nodup {α β : Type} [BEq α] [LawfulBEq α] {l : List (α × β)}
    (hnd : (l.map Prod.fst).Nodup) {k : α} {b : β} (h : (k, b) ∈ l) :
    l.lookup k = some b := by
  induction l with
  | nil => simp at h
  | cons p l ih =>
    obtain ⟨k', b'⟩ := p
    simp only [List.map_cons, List.nodup_cons] at hnd
    rcases List.mem_cons.mp h with heq | hmem
    · injection heq with h1 h2
      rw [List.lookup, h1, h2]
      simp
    · have hne : (k == k') = false := by
        refine beq_eq_false_iff_ne.mpr fun he => hnd.1 ?_
        exact he ▸ List.mem_map.mpr ⟨(k, b), hmem, rfl⟩
      rw [List.lookup, hne]
      exact ih hnd.2 hmem

/-- Membership in the routed category set, characterized through the two
static tables: `c` is routed for `q` exactly when some keyword of
`QUERY_KEYWORDS` occurs in the lower-cased query and `c` is a member tag of
that keyword's group in `CATEGORY_GROUPS`. -/
theorem mem_get_categories_iff (q c : String) :
    c ∈ get_categories_for_query q ↔
      ∃ kw g tags, (kw, g) ∈ QUERY_KEYWORDS ∧
        containsSub (pyLower q).data kw.data = true ∧
        (g, tags) ∈ CATEGORY_GROUPS ∧ c ∈ tags := by
  have hnd : (CATEGORY_GROUPS.map Prod.fst).Nodup := by decide
  simp only [get_categories_for_query, List.mem_toFinset, List.mem_flatten, List.mem_map,
    List.mem_filter]
  constructor
  · rintro ⟨l, ⟨g, ⟨⟨kw, g'⟩, ⟨hmem, hsub⟩, rfl⟩, rfl⟩, hc⟩
    match htag : CATEGORY_GROUPS.lookup g' with
    | none => rw [htag] at hc; simp at hc
    | some tags =>
      rw [htag] at hc
      exact ⟨kw, g', tags, hmem, hsub, lookup_mem htag, by simpa using hc⟩
  · rintro ⟨kw, g, tags, hmem, hsub, htg, hc⟩
    refine ⟨(CATEGORY_GROUPS.lookup g).getD [], ⟨g, ⟨⟨kw, g⟩, ⟨hmem, hsub⟩, rfl⟩, rfl⟩, ?_⟩
    rw [lookup_eq_of_mem_nodup hnd htg]
    simpa using hc

theorem startsWith_append {s p t : List Char} (h : startsWith s p = true) :
    startsWith (s ++ t) p = true := by
  induction p generalizing s with
  | nil => cases s <;> simp [startsWith]
  | cons d ds ih =>
    cases s with
    | nil => simp [startsWith] at h
    | cons c cs =>
      rw [startsWith, Bool.and_eq_true] at h
      rw [List.cons_append, startsWith, Bool.and_eq_true]
      exact ⟨h.1, ih h.2⟩

theorem containsSub_append_right {s p t : List Char} (h : containsSub s p = true) :
    containsSub (s ++ t) p = true := by
  induction s with
  | nil =>
    rw [containsSub] at h
    cases p with
    | nil => cases t with
      | nil => simpa [containsSub] using h
      | cons c cs => simp [containsSub, startsWith]
    | cons d ds => simp [startsWith] at h
  | cons c cs ih =>
    rw [containsSub, Bool.or_eq_true] at h
    rw [List.cons_append, containsSub, Bool.or_eq_true]
    rcases h with h | h
    · exact Or.inl (startsWith_append h)
    · exact Or.inr (ih h)

theorem containsSub_append_left {s p t : List Char} (h : containsSub s p = true) :
    containsSub (t ++ s) p = true := by
  induction t with
  | nil => simpa using h
  | cons c cs ih =>
    rw [List.cons_append, containsSub, Bool.or_eq_true]
    exact Or.inr ih

theorem pyLower_data_append (a b : String) :
    (pyLower (a ++ b)).data = (pyLower a).data ++ (pyLower b).data := by
  cases a with
  | mk la =>
    cases b with
    | mk lb => simp [pyLower, String.data]

/-! ## Chunker lemmas -/

theorem chunkWords_nil {α : Type} (m : ℕ) : chunkWords m ([] : List α) = [] := by
  rw [chunkWords]

theorem chunkWords_of_ne_nil {α : Type} {m : ℕ} (hm : m ≠ 0) {l : List α} (hl : l ≠ []) :
    chunkWords m l = l.take m :: chunkWords m (l.drop m) := by
  cases l with
  | nil => exact absurd rfl hl
  | cons w ws => rw [chunkWords]; simp [hm]

theorem chunkWords_flatten {α : Type} {m : ℕ} (hm : m ≠ 0) (l : List α) :
    (chunkWords m l).flatten = l := by
  have H : ∀ n (l : List α), l.length ≤ n → (chunkWords m l).flatten = l := by
    intro n
    induction n with
    | zero =>
      intro l hl
      obtain rfl : l = [] := List.eq_nil_of_length_eq_zero (Nat.le_zero.mp hl)
      simp [chunkWords_nil]
    | succ n ih =>
      intro l hl
      cases l with
      | nil => simp [chunkWords_nil]
      | cons w ws =>
        rw [chunkWords_of_ne_nil hm (by simp), List.flatten_cons,
          ih ((w :: ws).drop m) (by simp at hl ⊢; omega), List.take_append_drop]
  exact H l.length l le_rfl

theorem chunkWords_mem {α : Type} {m : ℕ} (hm : m ≠ 0) (l : List α) :
    ∀ w ∈ chunkWords m l, w ≠ [] ∧ w.length ≤ m ∧ ∀ x ∈ w, x ∈ l := by
  have H : ∀ n (l : List α), l.length ≤ n →
      ∀ w ∈ chunkWords m l, w ≠ [] ∧ w.length ≤ m ∧ ∀ x ∈ w, x ∈ l := by
    intro n
    induction n with
    | zero =>
      intro l hl
      obtain rfl : l = [] := List.eq_nil_of_length_eq_zero (Nat.le_zero.mp hl)
      simp [chunkWords_nil]
    | succ n ih =>
      intro l hl w hw
      cases l with
      | nil => simp [chunkWords_nil] at hw
      | cons a as =>
        rw [chunkWords_of_ne_nil hm (by simp)] at hw
        rcases List.mem_cons.mp hw with rfl | hw
        · refine ⟨by cases m with | zero => exact absurd rfl hm | succ k => simp,
            List.length_take_le .., fun x hx => List.take_subset _ _ hx⟩
        · obtain ⟨h1, h2, h3⟩ := ih ((a :: as).drop m) (by simp at hl ⊢; omega) w hw
          exact ⟨h1, h2, fun x hx => List.drop_subset _ _ (h3 x hx)⟩
  exact H l.length l le_rfl

theorem chunkWords_dropLast {α : Type} {m : ℕ} (hm : m ≠ 0) (l : List α) :
    ∀ w ∈ (chunkWords m l).dropLast, w.length = m := by
  have H : ∀ n (l : List α), l.length ≤ n →
      ∀ w ∈ (chunkWords m l).dropLast, w.length = m := by
    intro n
    induction n with
    | zero =>
      intro l hl
      obtain rfl : l = [] := List.eq_nil_of_length_eq_zero (Nat.le_zero.mp hl)
      simp [chunkWords_nil]
    | succ n ih =>
      intro l hl w hw
      cases l with
      | nil => simp [chunkWords_nil] at hw
      | cons a as =>
        rw [chunkWords_of_ne_nil hm (by simp)] at hw
        by_cases hrest : chunkWords m ((a :: as).drop m) = []
        · rw [hrest] at hw
          simp at hw
        · rw [List.dropLast_cons_of_ne_nil hrest] at hw
          rcases List.mem_cons.mp hw with rfl | hw
          · have hdrop : (a :: as).drop m ≠ [] := by
              intro h0
              rw [h0, chunkWords_nil] at hrest
              exact hrest rfl
            have hlen : m < (a :: as).length := by
              by_contra hle
              push_neg at hle
              exact hdrop (List.drop_eq_nil_of_le hle)
            simpa using Nat.min_eq_left (le_of_lt hlen)
          · exact ih ((a :: as).drop m) (by simp at hl ⊢; omega) w hw
  exact H l.length l le_rfl

theorem chunkWords_length {α : Type} {m : ℕ} (hm : m ≠ 0) (l : List α) :
    (chunkWords m l).length = (l.length + m - 1) / m := by
  have H : ∀ n (l : List α), l.length ≤ n →
      (chunkWords m l).length = (l.length + m - 1) / m := by
    intro n
    induction n with
    | zero =>
      intro l hl
      obtain rfl : l = [] := List.eq_nil_of_length_eq_zero (Nat.le_zero.mp hl)
      rw [chunkWords_nil]
      simp [Nat.div_eq_of_lt (by omega : m - 1 < m)]
    | succ n ih =>
      intro l hl
      cases l with
      | nil =>
        rw [chunkWords_nil]
        simp [Nat.div_eq_of_lt (by omega : m - 1 < m)]
      | cons a as =>
        rw [chunkWords_of_ne_nil hm (by simp), List.length_cons,
          ih ((a :: as).drop m) (by simp at hl ⊢; omega), List.length_drop]
        have hm' : 0 < m := Nat.pos_of_ne_zero hm
        have hL1 : 1 ≤ (a :: as).length := by simp
        by_cases hcase : m < (a :: as).length
        · have he : (a :: as).length + m - 1 = ((a :: as).length - m + m - 1) + m := by omega
          rw [he, Nat.add_div_right _ hm']
        · push_neg at hcase
          have e1 : (a :: as).length - m + m - 1 = m - 1 := by omega
          have e2 : (a :: as).length + m - 1 = ((a :: as).length - 1) + m := by omega
          rw [e1, e2, Nat.add_div_right _ hm', Nat.div_eq_of_lt (by omega),
            Nat.div_eq_of_lt (by omega)]
  exact H l.length l le_rfl

theorem flushAcc_reverse {w : List Char} (hne : w ≠ []) : flushAcc w.reverse = [w] := by
  simp [flushAcc, List.isEmpty_iff, hne]

theorem pySplitAux_word {w : List Char} (hw : ∀ c ∈ w, c.isWhitespace = false)
    (t acc : List Char) : pySplitAux (w ++ t) acc = pySplitAux t (w.reverse ++ acc) := by
  induction w generalizing acc with
  | nil => simp
  | cons c cs ih =>
    have hc := hw c (List.mem_cons_self ..)
    rw [List.cons_append, pySplitAux, hc]
    simp only [Bool.false_eq_true, if_false]
    rw [ih (fun x hx => hw x (List.mem_cons_of_mem _ hx)) (c :: acc)]
    simp

theorem pySplitAux_ws {c : Char} (hc : c.isWhitespace = true) (t acc : List Char) :
    pySplitAux (c :: t) acc = flushAcc acc ++ pySplitAux t [] := by
  rw [pySplitAux, hc]
  simp

theorem pySplit_joinWords {ws : List (List Char)}
    (h : ∀ w ∈ ws, w ≠ [] ∧ ∀ c ∈ w, c.isWhitespace = false) :
    pySplit (joinWords ws) = ws := by
  induction ws with
  | nil => simp [joinWords, pySplit, pySplitAux, flushAcc]
  | cons w ws ih =>
    obtain ⟨hne, hnws⟩ := h w (List.mem_cons_self ..)
    cases ws with
    | nil =>
      show pySplitAux (joinWords [w]) [] = [w]
      rw [joinWords, show w = w ++ ([] : List Char) by simp, pySplitAux_word hnws]
      rw [pySplitAux]
      simpa using flushAcc_reverse hne
    | cons v vs =>
      have ih' := ih (fun x hx => h x (List.mem_cons_of_mem _ hx))
      show pySplitAux (joinWords (w :: v :: vs)) [] = w :: v :: vs
      rw [show joinWords (w :: v :: vs) = w ++ (' ' :: joinWords (v :: vs)) from rfl,
        pySplitAux_word hnws, pySplitAux_ws (by decide)]
      rw [show w.reverse ++ ([] : List Char) = w.reverse by simp, flushAcc_reverse hne]
      rw [show pySplitAux (joinWords (v :: vs)) [] = pySplit (joinWords (v :: vs)) from rfl, ih']
      simp

theorem pySplitAux_members :
    ∀ (s acc : List Char), (∀ c ∈ acc, c.isWhitespace = false) →
      ∀ w ∈ pySplitAux s acc, w ≠ [] ∧ ∀ c ∈ w, c.isWhitespace = false := by
  intro s
  induction s with
  | nil =>
    intro acc hacc w hw
    rw [pySplitAux, flushAcc] at hw
    by_cases he : acc.isEmpty
    · simp [he] at hw
    · simp only [he, if_false, Bool.false_eq_true, List.mem_singleton] at hw
      subst hw
      refine ⟨by simpa using List.isEmpty_iff.not.mp he, fun c hc => hacc c (by simpa using hc)⟩
  | cons c cs ih =>
    intro acc hacc w hw
    rw [pySplitAux] at hw
    by_cases hc : c.isWhitespace
    · rw [hc] at hw
      simp only [if_true] at hw
      rcases List.mem_append.mp hw with hw | hw
      · rw [flushAcc] at hw
        by_cases he : acc.isEmpty
        · simp [he] at hw
        · simp only [he, if_false, Bool.false_eq_true, List.mem_singleton] at hw
          subst hw
          exact ⟨by simpa using List.isEmpty_iff.not.mp he,
            fun x hx => hacc x (by simpa using hx)⟩
      · exact ih [] (by simp) w hw
    · rw [Bool.not_eq_true] at hc
      rw [hc] at hw
      simp only [Bool.false_eq_true, if_false] at hw
      refine ih (c :: acc) ?_ w hw
      intro x hx
      rcases List.mem_cons.mp hx with rfl | hx
      · exact hc
      · exact hacc x hx

theorem pySplit_members (s : List Char) :
    ∀ w ∈ pySplit s, w ≠ [] ∧ ∀ c ∈ w, c.isWhitespace = false :=
  pySplitAux_members s [] (by simp)

/-! ## C4: the chunker -/

/-- C4: a document of at most `max_words` words chunks to the single chunk
equal to the whole content; the chunks' word sequences concatenate back to
the original word sequence; for a longer document every non-final chunk has
exactly `max_words` words and every chunk has between 1 and `max_words`
words; a document of `3 * max_words + r` words (`0 < r < max_words`) yields
exactly 4 chunks. -/
theorem chunk_document_spec (content : String) (m r : ℕ) (hm : 0 < m) :
    ((pySplit content.data).length ≤ m → chunk_document content m = [content])
    ∧ ((chunk_document content m).map fun s => pySplit s.data).flatten = pySplit content.data
    ∧ (m < (pySplit content.data).length →
        (∀ s ∈ (chunk_document content m).dropLast, (pySplit s.data).length = m)
        ∧ ∀ s ∈ chunk_document content m,
            0 < (pySplit s.data).length ∧ (pySplit s.data).length ≤ m)
    ∧ ((pySplit content.data).length = 3 * m + r → 0 < r → r < m →
        (chunk_document content m).length = 4) := by
  have hm' : m ≠ 0 := Nat.pos_iff_ne_zero.mp hm
  have hrec : ∀ w ∈ chunkWords m (pySplit content.data),
      pySplit (String.mk (joinWords w)).data = w := by
    intro w hw
    obtain ⟨hne, hlen, hsub⟩ := chunkWords_mem hm' _ w hw
    show pySplit (joinWords w) = w
    exact pySplit_joinWords fun x hx => pySplit_members content.data x (hsub x hx)
  have hcd_le : (pySplit content.data).length ≤ m → chunk_document content m = [content] := by
    intro h
    rw [chunk_document]
    simp only [h, if_true, if_pos]
  have hcd_gt : m < (pySplit content.data).length →
      chunk_document content m
        = (chunkWords m (pySplit content.data)).map fun ws => String.mk (joinWords ws) := by
    intro h
    rw [chunk_document]
    simp only [Nat.not_le.mpr h, if_false, Bool.false_eq_true]
  have hmapid : m < (pySplit content.data).length →
      ((chunk_document content m).map fun s => pySplit s.data)
        = chunkWords m (pySplit content.data) := by
    intro h
    rw [hcd_gt h, List.map_map]
    calc (chunkWords m (pySplit content.data)).map
          ((fun s => pySplit s.data) ∘ fun ws => String.mk (joinWords ws))
        = (chunkWords m (pySplit content.data)).map id :=
          List.map_congr_left fun w hw => hrec w hw
      _ = chunkWords m (pySplit content.data) := List.map_id _
  refine ⟨hcd_le, ?_, ?_, ?_⟩
  · by_cases h : (pySplit content.data).length ≤ m
    · rw [hcd_le h]
      simp
    · push_neg at h
      rw [hmapid h, chunkWords_flatten hm']
  · intro h
    constructor
    · intro s hs
      have : (pySplit s.data) ∈ ((chunk_document content m).map fun s => pySplit s.data).dropLast := by
        rw [← List.map_dropLast]
        exact List.mem_map.mpr ⟨s, hs, rfl⟩
      rw [hmapid h] at this
      exact chunkWords_dropLast hm' _ _ this
    · intro s hs
      rw [hcd_gt h] at hs
      obtain ⟨w, hw, rfl⟩ := List.mem_map.mp hs
      rw [hrec w hw]
      obtain ⟨hne, hlen, -⟩ := chunkWords_mem hm' _ w hw
      exact ⟨List.length_pos.mpr hne, hlen⟩
  · intro hlen hr hrm
    have h : m < (pySplit content.data).length := by omega
    rw [hcd_gt h, List.length_map, chunkWords_length hm', hlen]
    have he : 3 * m + r + m - 1 = (r - 1) + m * 4 := by omega
    rw [he, Nat.add_mul_div_left _ _ hm, Nat.div_eq_of_lt (by omega)]

/-- C4 witness: the seven-word document "a b c d e f g" with a window of two
words (`r = 1`). -/
theorem chunk_document_spec_witness :
    0 < 2
    ∧ (((pySplit ("a b c d e f g" : String).data).length ≤ 2 →
          chunk_document "a b c d e f g" 2 = ["a b c d e f g"])
      ∧ ((chunk_document "a b c d e f g" 2).map fun s => pySplit s.data).flatten
          = pySplit ("a b c d e f g" : String).data
      ∧ (2 < (pySplit ("a b c d e f g" : String).data).length →
          (∀ s ∈ (chunk_document "a b c d e f g" 2).dropLast, (pySplit s.data).length = 2)
          ∧ ∀ s ∈ chunk_document "a b c d e f g" 2,
              0 < (pySplit s.data).length ∧ (pySplit s.data).length ≤ 2)
      ∧ ((pySplit ("a b c d e f g" : String).data).length = 3 * 2 + 1 → 0 < 1 → 1 < 2 →
          (chunk_document "a b c d e f g" 2).length = 4)) :=
  ⟨by decide, chunk_document_spec "a b c d e f g" 2 1 (by decide)⟩

/-! ## C5, C9: the category router -/

/-- C5: a tag is routed for a query exactly when some keyword of the static
keyword-to-group table is a substring of the lower-cased query and the tag
is a member of that keyword's group in the static group-to-tags table (the
result being the deduplicated union over all matched keywords); the empty
query matches no keyword and routes to the empty set; and routing is a pure
function, so repeated calls on the same query return the same set. -/
theorem get_categories_for_query_spec (q c : String) :
    (c ∈ get_categories_for_query q ↔
      ∃ kw g tags, (kw, g) ∈ QUERY_KEYWORDS ∧
        containsSub (pyLower q).data kw.data = true ∧
        (g, tags) ∈ CATEGORY_GROUPS ∧ c ∈ tags)
    ∧ get_categories_for_query "" = ∅
    ∧ get_categories_for_query q = get_categories_for_query q :=
  ⟨mem_get_categories_iff q c, by decide, rfl⟩

/-- C9: category routing is monotone under query extension on either side —
every category routed for `q` is still routed for `q ++ s` and for
`s ++ q`. -/
theorem get_categories_monotone (q s : String) :
    get_categories_for_query q ⊆ get_categories_for_query (q ++ s)
    ∧ get_categories_for_query q ⊆ get_categories_for_query (s ++ q) := by
  constructor
  · intro c hc
    obtain ⟨kw, g, tags, hmem, hsub, htg, hctag⟩ := (mem_get_categories_iff q c).mp hc
    refine (mem_get_categories_iff _ c).mpr ⟨kw, g, tags, hmem, ?_, htg, hctag⟩
    rw [pyLower_data_append]
    exact containsSub_append_right hsub
  · intro c hc
    obtain ⟨kw, g, tags, hmem, hsub, htg, hctag⟩ := (mem_get_categories_iff q c).mp hc
    refine (mem_get_categories_iff _ c).mpr ⟨kw, g, tags, hmem, ?_, htg, hctag⟩
    rw [pyLower_data_append]
    exact containsSub_append_left hsub

/-! ## Evaluation lemmas for the concrete environments -/

theorem pyNormalize_unit : pyNormalize [(1 : ℝ), 0, 0, 0] = [1, 0, 0, 0] := by
  have h : sumsq [(1 : ℝ), 0, 0, 0] = 1 := by
    simp only [sumsq_cons, sumsq_nil]
    norm_num
  unfold pyNormalize pyNorm
  rw [h, Real.sqrt_one]
  norm_num

theorem pyNormalize_v25 :
    pyNormalize [(2 : ℝ) / 5, 4 / 5, 2 / 5, 1 / 5] = [2 / 5, 4 / 5, 2 / 5, 1 / 5] := by
  have h : sumsq [(2 : ℝ) / 5, 4 / 5, 2 / 5, 1 / 5] = 1 := by
    simp only [sumsq_cons, sumsq_nil]
    norm_num
  unfold pyNormalize pyNorm
  rw [h, Real.sqrt_one]
  norm_num

theorem scoreDocs_cons_ok (env : Env) (qv : List ℝ) (i : ℕ) (d : Doc)
    (rest : List (ℕ × Doc)) (v : List ℝ) (h : reconstruct env i = .ok v) :
    scoreDocs env qv ((i, d) :: rest)
      = { similarity_score := dotL qv (pyNormalize v), title := d.title,
          category := d.category, content := d.content } :: scoreDocs env qv rest := by
  rw [scoreDocs, h]

theorem scoreDocs_cons_err (env : Env) (qv : List ℝ) (i : ℕ) (d : Doc)
    (rest : List (ℕ × Doc)) (e : PyErr) (h : reconstruct env i = .error e) :
    scoreDocs env qv ((i, d) :: rest) = scoreDocs env qv rest := by
  rw [scoreDocs, h]

theorem scoreDocs_nil (env : Env) (qv : List ℝ) : scoreDocs env qv [] = [] := by
  rw [scoreDocs]

theorem pySortDesc_singleton (x : MDoc) : pySortDesc [x] = [x] := by
  rw [pySortDesc, pySortDesc, pyInsertDesc]

theorem envA_scoped :
    search_by_category envA "flow" (get_categories_for_query "flow") 5 = [mdocA] := by
  have hq : query_embedding envA "flow" = [1, 0, 0, 0] := by
    rw [query_embedding, show envA.embed "flow" = [(1 : ℝ), 0, 0, 0] from rfl, pyNormalize_unit]
  have hcd : categoryDocs envA (get_categories_for_query "flow") = [(0, docA)] := by decide
  rw [search_by_category, if_neg (by decide : ¬(get_categories_for_query "flow" = ∅))]
  simp only [hcd, hq]
  rw [if_neg (by simp : ¬((0, docA) :: [] = []))]
  rw [scoreDocs_cons_ok envA _ 0 docA [] [(1 : ℝ), 0, 0, 0] rfl, scoreDocs_nil,
    pyNormalize_unit]
  have hdot : dotL [(1 : ℝ), 0, 0, 0] [1, 0, 0, 0] = 1 := by
    simp only [dotL_cons, dotL_nil_left]
    norm_num
  rw [hdot, pySortDesc_singleton]
  rfl

theorem envB_scoped :
    search_by_category envB "flow" (get_categories_for_query "flow") 5
      = [{ similarity_score := 2 / 5, title := "t", category := "flow-types",
           content := "body" }] := by
  have hq : query_embedding envB "flow" = [1, 0, 0, 0] := by
    rw [query_embedding, show envB.embed "flow" = [(1 : ℝ), 0, 0, 0] from rfl, pyNormalize_unit]
  have hcd : categoryDocs envB (get_categories_for_query "flow") = [(0, docA)] := by decide
  rw [search_by_category, if_neg (by decide : ¬(get_categories_for_query "flow" = ∅))]
  simp only [hcd, hq]
  rw [if_neg (by simp : ¬((0, docA) :: [] = []))]
  rw [scoreDocs_cons_ok envB _ 0 docA [] [(2 : ℝ) / 5, 4 / 5, 2 / 5, 1 / 5] rfl,
    scoreDocs_nil, pyNormalize_v25]
  have hdot : dotL [(1 : ℝ), 0, 0, 0] [2 / 5, 4 / 5, 2 / 5, 1 / 5] = 2 / 5 := by
    simp only [dotL_cons, dotL_nil_left]
    norm_num
  rw [hdot, pySortDesc_singleton]
  rfl

/-! ## C1: the fallback gate -/

/-- C1 (amended): whenever the category-scoped search returns a non-empty
list (head result `d`), the retrieval engine returns the scoped result set
exactly when `d`'s similarity is strictly greater than `0.4`
(`docs[0].get('similarity_score', 0) > 0.4`); otherwise — including at a best
similarity of exactly `0.4` — the scoped results are discarded and the
general search's outcome is returned. -/
theorem retrieve_documents_gate (env : Env) (q : String) (k : ℕ) (d : MDoc)
    (hd : (search_by_category env q (get_categories_for_query q) k).head? = some d) :
    retrieve_documents env q k =
      if d.similarity_score > 0.4
      then .ok (search_by_category env q (get_categories_for_query q) k)
      else search_general env q k := by
  have hcats : ¬(get_categories_for_query q = ∅) := by
    intro h0
    rw [search_by_category, if_pos h0] at hd
    simp at hd
  rw [retrieve_documents]
  simp only [if_neg hcats, hd]

/-- C1 witness: in `envA` the scoped head has similarity `1 > 0.4` and the
scoped set is returned. -/
theorem retrieve_documents_gate_witness :
    (search_by_category envA "flow" (get_categories_for_query "flow") 5).head? = some mdocA
    ∧ retrieve_documents envA "flow" 5 =
        if mdocA.similarity_score > 0.4
        then .ok (search_by_category envA "flow" (get_categories_for_query "flow") 5)
        else search_general envA "flow" 5 :=
  ⟨by rw [envA_scoped]; rfl,
   retrieve_documents_gate envA "flow" 5 mdocA (by rw [envA_scoped]; rfl)⟩

/-- C1 counterexample: in `envB` the best scoped similarity is exactly
`2/5 = 0.4`, yet the engine discards the scoped set (which it would have to
return under a `≥ 0.4` gate) and returns the general search's outcome
(here `.ok []`). -/
theorem retrieve_documents_gate_cex :
    ((search_by_category envB "flow" (get_categories_for_query "flow") 5).map
        MDoc.similarity_score = [2 / 5])
    ∧ ((2 : ℝ) / 5 = 0.4)
    ∧ retrieve_documents envB "flow" 5 = .ok []
    ∧ retrieve_documents envB "flow" 5
        ≠ .ok (search_by_category envB "flow" (get_categories_for_query "flow") 5) := by
  have hr : retrieve_documents envB "flow" 5 = .ok [] := by
    rw [retrieve_documents, if_neg (by decide : ¬(get_categories_for_query "flow" = ∅))]
    simp only [envB_scoped, List.head?_cons]
    rw [if_neg (by norm_num : ¬((2 : ℝ) / 5 > 0.4))]
    rfl
  refine ⟨by rw [envB_scoped]; rfl, by norm_num, hr, ?_⟩
  rw [hr, envB_scoped]
  simp

/-! ## C2, C8: the general-search loop -/

/-- C2: evaluated on a query for which the index search returns one hit
(inner product `0.9` at position `0`, with a matching corpus row),
`search_general` raises `TypeError` instead of returning that hit: the loop
header `for (similarity, idx) in enumerate(zip(similarities[0], indices[0]))`
binds `idx` to the `(similarity, index)` tuple, so `idx == -1` is never true
and `idx + 1` is a tuple-plus-integer. -/
theorem search_general_typeError : search_general envE "query" 5 = .error .typeError := rfl

/-- C8: when the index search reports position `5`, for which the one-row
corpus store has no row, `search_general` does not skip the entry and
continue — it fails the whole query with the same `TypeError` (the loop
never reaches the `if doc:` hydration guard); by contrast the analogous loop
in `IndexSearcher.search` does skip the invalid position with a warning and
still returns the remaining entry (here with rank `2`). -/
theorem search_general_no_row :
    search_general envF "q" 5 = .error .typeError
    ∧ (IndexSearcher_search envF "q" 5).map ISRes.rank = [2] := ⟨rfl, rfl⟩

/-! ## C6: no blending of the two paths -/

/-- C6: every retrieval outcome is either exactly the scoped result set or
exactly the general search's outcome, never a mixture; and whenever routing
returns no categories, or no stored document matches the routed categories,
or the scoped search returns nothing, or its head fails the confidence gate,
the whole scoped set is discarded and the general search's outcome is
returned. -/
theorem retrieve_documents_no_blend (env : Env) (q : String) (k : ℕ) :
    (retrieve_documents env q k
        = .ok (search_by_category env q (get_categories_for_query q) k)
      ∨ retrieve_documents env q k = search_general env q k)
    ∧ (get_categories_for_query q = ∅ →
        retrieve_documents env q k = search_general env q k)
    ∧ (categoryDocs env (get_categories_for_query q) = [] →
        retrieve_documents env q k = search_general env q k)
    ∧ (search_by_category env q (get_categories_for_query q) k = [] →
        retrieve_documents env q k = search_general env q k)
    ∧ ∀ d, (search_by_category env q (get_categories_for_query q) k).head? = some d →
        d.similarity_score ≤ 0.4 →
        retrieve_documents env q k = search_general env q k := by
  by_cases hc : get_categories_for_query q = ∅
  · have hr : retrieve_documents env q k = search_general env q k := by
      rw [retrieve_documents, if_pos hc]
    exact ⟨Or.inr hr, fun _ => hr, fun _ => hr, fun _ => hr, fun _ _ _ => hr⟩
  · cases hh : (search_by_category env q (get_categories_for_query q) k).head? with
    | none =>
      have hr : retrieve_documents env q k = search_general env q k := by
        rw [retrieve_documents]
        simp only [if_neg hc, hh]
      exact ⟨Or.inr hr, fun h => absurd h hc, fun _ => hr, fun _ => hr,
        fun d hd _ => by simp [hh] at hd⟩
    | some d =>
      by_cases hgate : d.similarity_score > 0.4
      · have hr : retrieve_documents env q k
            = .ok (search_by_category env q (get_categories_for_query q) k) := by
          rw [retrieve_documents]
          simp only [if_neg hc, hh]
          rw [if_pos hgate]
        refine ⟨Or.inl hr, fun h => absurd h hc, ?_, ?_, ?_⟩
        · intro h0
          have hnil : search_by_category env q (get_categories_for_query q) k = [] := by
            rw [search_by_category, if_neg hc]
            simp only [h0, if_pos]
          rw [hnil] at hh
          simp at hh
        · intro h0
          rw [h0] at hh
          simp at hh
        · intro d' hd' hle
          have he : d = d' := by injection hd'
          rw [← he] at hle
          exact absurd hgate (not_lt.mpr hle)
      · have hr : retrieve_documents env q k = search_general env q k := by
          rw [retrieve_documents]
          simp only [if_neg hc, hh]
          rw [if_neg hgate]
        exact ⟨Or.inr hr, fun _ => hr, fun _ => hr, fun _ => hr, fun _ _ _ => hr⟩

/-! ## C10: bad positions in category-scoped search -/

theorem pySortDesc_nil : pySortDesc [] = [] := by rw [pySortDesc]

theorem enumDocs_append (start : ℕ) (l1 l2 : List Doc) :
    enumDocs start (l1 ++ l2) = enumDocs start l1 ++ enumDocs (start + l1.length) l2 := by
  induction l1 generalizing start with
  | nil => simp [enumDocs]
  | cons d ds ih =>
    simp only [List.cons_append, enumDocs, List.length_cons, List.append_eq]
    rw [ih (start + 1), show start + 1 + ds.length = start + (ds.length + 1) by omega]

theorem scoreDocs_congr (env' env : Env) (h : env'.indexVecs = env.indexVecs)
    (qv : List ℝ) : ∀ l, scoreDocs env' qv l = scoreDocs env qv l := by
  intro l
  induction l with
  | nil => rw [scoreDocs_nil, scoreDocs_nil]
  | cons p rest ih =>
    obtain ⟨i, d⟩ := p
    have hrec : reconstruct env' i = reconstruct env i := by
      rw [reconstruct, reconstruct, h]
    cases hr : reconstruct env i with
    | ok v =>
      rw [scoreDocs_cons_ok env' qv i d rest v (hrec.trans hr),
        scoreDocs_cons_ok env qv i d rest v hr, ih]
    | error e =>
      rw [scoreDocs_cons_err env' qv i d rest e (hrec.trans hr),
        scoreDocs_cons_err env qv i d rest e hr, ih]

theorem scoreDocs_append (env : Env) (qv : List ℝ) (l1 l2 : List (ℕ × Doc)) :
    scoreDocs env qv (l1 ++ l2) = scoreDocs env qv l1 ++ scoreDocs env qv l2 := by
  induction l1 with
  | nil => rw [List.nil_append, scoreDocs_nil, List.nil_append]
  | cons p rest ih =>
    obtain ⟨i, d⟩ := p
    cases hr : reconstruct env i with
    | ok v =>
      rw [List.cons_append, scoreDocs_cons_ok _ _ _ _ _ v hr,
        scoreDocs_cons_ok _ _ _ _ _ v hr, ih, List.cons_append]
    | error e =>
      rw [List.cons_append, scoreDocs_cons_err _ _ _ _ _ e hr,
        scoreDocs_cons_err _ _ _ _ _ e hr, ih]

theorem scoreDocs_invalid (env : Env) (qv : List ℝ) (i : ℕ) (d : Doc)
    (h : env.indexVecs.length ≤ i) : scoreDocs env qv [(i, d)] = [] := by
  have hrec : reconstruct env i = .error .outOfRange := by
    rw [reconstruct, List.getElem?_eq_none h]
  rw [scoreDocs_cons_err _ _ _ _ _ _ hrec, scoreDocs_nil]

/-- C10: appending to the corpus a document whose derived index position
falls at or beyond the index's vector count leaves the category-scoped
search's output unchanged: the unreconstructable candidate is skipped, the
remaining candidates are still scored and returned, and the scoped search
never fails as a whole. -/
theorem search_by_category_skips_bad (env : Env) (q : String) (cats : Finset String)
    (k : ℕ) (b : Doc) (h : env.indexVecs.length ≤ env.db.length) :
    search_by_category { env with db := env.db ++ [b] } q cats k
      = search_by_category env q cats k := by
  by_cases hc : cats = ∅
  · rw [search_by_category, search_by_category, if_pos hc, if_pos hc]
  · have hcd : categoryDocs { env with db := env.db ++ [b] } cats
        = categoryDocs env cats
          ++ if b.category ∈ cats then [(env.db.length, b)] else [] := by
      rw [categoryDocs, categoryDocs,
        show ({ env with db := env.db ++ [b] } : Env).db = env.db ++ [b] from rfl,
        enumDocs_append, List.filter_append]
      congr 1
      by_cases hb : b.category ∈ cats
      · simp [enumDocs, List.filter, hb]
      · simp [enumDocs, List.filter, hb]
    have hq : query_embedding { env with db := env.db ++ [b] } q
        = query_embedding env q := rfl
    have hsc := scoreDocs_congr { env with db := env.db ++ [b] } env rfl
      (query_embedding env q)
    have hT : scoreDocs env (query_embedding env q)
        (if b.category ∈ cats then [(env.db.length, b)] else []) = [] := by
      by_cases hb : b.category ∈ cats
      · rw [if_pos hb]
        exact scoreDocs_invalid env _ _ b h
      · rw [if_neg hb]
        exact scoreDocs_nil env _
    rw [search_by_category, search_by_category, if_neg hc, if_neg hc]
    simp only [hcd, hq, hsc, scoreDocs_append, hT, List.append_nil]
    by_cases hcd0 : categoryDocs env cats = []
    · simp only [hcd0, List.nil_append, scoreDocs_nil, pySortDesc_nil, List.take_nil,
        ite_self, if_pos rfl]
    · have hne : categoryDocs env cats
          ++ (if b.category ∈ cats then [(env.db.length, b)] else []) ≠ [] := by
        intro h0
        exact hcd0 (List.append_eq_nil.mp h0).1
      rw [if_neg hne, if_neg hcd0]

/-- C10 witness: in `envC` (one document, one stored vector) appending
`docBad` — whose derived position `1` is out of range — leaves the scoped
search unchanged. -/
theorem search_by_category_skips_bad_witness :
    envC.indexVecs.length ≤ envC.db.length
    ∧ search_by_category { envC with db := envC.db ++ [docBad] } "flow"
        (get_categories_for_query "flow") 5
      = search_by_category envC "flow" (get_categories_for_query "flow") 5 :=
  ⟨by decide,
   search_by_category_skips_bad envC "flow" (get_categories_for_query "flow") 5 docBad
     (by decide)⟩

/-! ## C3: normalization before storage and search -/

/-- C3 counterexample: with an encoder returning `[3, 4]`, the vector that
`IndexSearcher.search` hands to the inner-product index search has squared
norm `25`, not `1` — this search path compares an un-normalized query
embedding. -/
theorem IS_query_not_normalized_cex :
    IS_query_embedding envG "q" = [3, 4]
    ∧ sumsq (IS_query_embedding envG "q") = 25
    ∧ (25 : ℝ) ≠ 1 := by
  refine ⟨rfl, ?_, by norm_num⟩
  rw [show IS_query_embedding envG "q" = [(3 : ℝ), 4] from rfl]
  simp only [sumsq_cons, sumsq_nil]
  norm_num

/-- C3 (amended): every vector stored by `create_index` is L2-normalized
(unit squared norm, for nonzero embedding rows), and the query embedding
used by `search_by_category` and `search_general` in `src/model.py` is the
L2-normalized encoder output; but `IndexSearcher.search` in `src/index.py`
passes the raw encoder output to the index search without normalizing. -/
theorem normalization_invariants (embs : List (List ℝ)) (env : Env) (q : String)
    (hrows : ∀ v ∈ embs, sumsq v ≠ 0) (hq : sumsq (env.embed q) ≠ 0) :
    (∀ w ∈ create_index embs, sumsq w = 1)
    ∧ sumsq (query_embedding env q) = 1
    ∧ IS_query_embedding env q = env.embed q := by
  refine ⟨?_, sumsq_pyNormalize _ hq, rfl⟩
  intro w hw
  rw [create_index] at hw
  obtain ⟨v, hv, rfl⟩ := List.mem_map.mp hw
  exact sumsq_pyNormalize v (hrows v hv)

/-- C3 witness: one raw embedding row `[3, 4]` and the encoder of `envH`. -/
theorem normalization_invariants_witness :
    (∀ v ∈ [[(3 : ℝ), 4]], sumsq v ≠ 0)
    ∧ sumsq (envH.embed "q") ≠ 0
    ∧ ((∀ w ∈ create_index [[(3 : ℝ), 4]], sumsq w = 1)
      ∧ sumsq (query_embedding envH "q") = 1
      ∧ IS_query_embedding envH "q" = envH.embed "q") := by
  have h1 : ∀ v ∈ [[(3 : ℝ), 4]], sumsq v ≠ 0 := by
    intro v hv
    rw [List.mem_singleton] at hv
    subst hv
    simp only [sumsq_cons, sumsq_nil]
    norm_num
  have h2 : sumsq (envH.embed "q") ≠ 0 := by
    rw [show envH.embed "q" = [(1 : ℝ), 0, 0, 0] from rfl]
    simp only [sumsq_cons, sumsq_nil]
    norm_num
  exact ⟨h1, h2, normalization_invariants [[(3 : ℝ), 4]] envH "q" h1 h2⟩

/-! ## C7: search-result fields -/

/-- C7 counterexample: `IndexSearcher.search` converts the returned distance
to a score by `1.0 - distance`; with distance `-2` the produced result's
score is `3`, outside `[-1, 1]`. -/
theorem search_score_out_of_range_cex :
    (IndexSearcher_search envD "q" 1).map ISRes.search_score = [(3 : ℝ)]
    ∧ ¬((3 : ℝ) ≤ 1) := by
  constructor
  · have he : IndexSearcher_search envD "q" 1
        = [{ doc := docA, search_score := 1 - (-2 : ℝ), rank := 1 }] := rfl
    rw [he]
    simp only [List.map_cons, List.map_nil]
    norm_num
  · norm_num

theorem isLoop_rank (store : List Doc) :
    ∀ pairs, ∀ r ∈ isLoop store pairs, 1 ≤ r.rank := by
  intro pairs
  induction pairs with
  | nil =>
    intro r hr
    rw [isLoop] at hr
    cases hr
  | cons p rest ih =>
    obtain ⟨i, idx, dist⟩ := p
    intro r hr
    rw [isLoop] at hr
    by_cases hcond : 0 ≤ idx ∧ idx.toNat < store.length
    · rw [dif_pos hcond] at hr
      rcases List.mem_cons.mp hr with rfl | hr
      · exact Nat.succ_le_succ (Nat.zero_le i)
      · exact ih r hr
    · rw [dif_neg hcond] at hr
      exact ih r hr

theorem mem_pyInsertDesc (x y : MDoc) (l : List MDoc) :
    y ∈ pyInsertDesc x l ↔ y = x ∨ y ∈ l := by
  induction l with
  | nil => simp [pyInsertDesc]
  | cons z zs ih =>
    rw [pyInsertDesc]
    by_cases hc : z.similarity_score < x.similarity_score
    · rw [if_pos hc]
      simp [List.mem_cons]
    · rw [if_neg hc]
      simp only [List.mem_cons, ih]
      tauto

theorem mem_pySortDesc (l : List MDoc) (y : MDoc) : y ∈ pySortDesc l ↔ y ∈ l := by
  induction l with
  | nil => rw [pySortDesc]
  | cons x xs ih =>
    rw [pySortDesc, mem_pyInsertDesc]
    simp [ih]

theorem scoreDocs_sim (env : Env) (qv : List ℝ) :
    ∀ l, ∀ r ∈ scoreDocs env qv l,
      ∃ v ∈ env.indexVecs, r.similarity_score = dotL qv (pyNormalize v) := by
  intro l
  induction l with
  | nil =>
    intro r hr
    rw [scoreDocs_nil] at hr
    cases hr
  | cons p rest ih =>
    obtain ⟨i, d⟩ := p
    intro r hr
    cases hrec : reconstruct env i with
    | ok v =>
      rw [scoreDocs_cons_ok _ _ _ _ _ v hrec] at hr
      rcases List.mem_cons.mp hr with rfl | hr
      · refine ⟨v, ?_, rfl⟩
        rw [reconstruct] at hrec
        cases hg : env.indexVecs[i]? with
        | some w =>
          rw [hg] at hrec
          injection hrec with hw
          obtain ⟨hlt, hgeq⟩ := List.getElem?_eq_some_iff.mp hg
          rw [← hw, ← hgeq]
          exact List.getElem_mem hlt
        | none => rw [hg] at hrec; cases hrec
      · exact ih r hr
    | error e =>
      rw [scoreDocs_cons_err _ _ _ _ _ e hrec] at hr
      exact ih r hr

/-- C7 (amended): every result produced by `IndexSearcher.search` has
`rank ≥ 1`, and every result produced by `search_by_category` (for nonzero
stored vectors and query embedding) has `similarity_score` in `[-1, 1]`;
but the `search_score = 1.0 - distance` of `IndexSearcher.search` is not
confined to `[-1, 1]`, and the result dicts of `src/model.py` carry no rank
key at all. -/
theorem search_result_fields (env : Env) (q : String) (k : ℕ)
    (hvecs : ∀ v ∈ env.indexVecs, sumsq v ≠ 0) (hq : sumsq (env.embed q) ≠ 0) :
    (∀ r ∈ IndexSearcher_search env q k, 1 ≤ r.rank)
    ∧ ∀ cats r, r ∈ search_by_category env q cats k →
        -1 ≤ r.similarity_score ∧ r.similarity_score ≤ 1 := by
  constructor
  · intro r hr
    exact isLoop_rank env.db _ r hr
  · intro cats r hr
    rw [search_by_category] at hr
    by_cases hc : cats = ∅
    · rw [if_pos hc] at hr
      cases hr
    · rw [if_neg hc] at hr
      simp only at hr
      by_cases hcd : categoryDocs env cats = []
      · rw [if_pos hcd] at hr
        cases hr
      · rw [if_neg hcd] at hr
        have hmem : r ∈ pySortDesc (scoreDocs env (query_embedding env q)
            (categoryDocs env cats)) := List.take_subset _ _ hr
        rw [mem_pySortDesc] at hmem
        obtain ⟨v, hv, hsim⟩ := scoreDocs_sim env _ _ r hmem
        rw [hsim, query_embedding]
        exact dotL_normalize_mem_Icc (env.embed q) v hq (hvecs v hv)

/-- C7 witness: in `envJ` every `IndexSearcher.search` result has rank at
least 1 and every scoped-search similarity lies in `[-1, 1]`. -/
theorem search_result_fields_witness :
    (∀ v ∈ envJ.indexVecs, sumsq v ≠ 0)
    ∧ sumsq (envJ.embed "q") ≠ 0
    ∧ ((∀ r ∈ IndexSearcher_search envJ "q" 5, 1 ≤ r.rank)
      ∧ ∀ cats r, r ∈ search_by_category envJ "q" cats 5 →
          -1 ≤ r.similarity_score ∧ r.similarity_score ≤ 1) := by
  have h1 : ∀ v ∈ envJ.indexVecs, sumsq v ≠ 0 := by
    intro v hv
    rw [show envJ.indexVecs = [[(1 : ℝ), 0, 0, 0]] from rfl, List.mem_singleton] at hv
    subst hv
    simp only [sumsq_cons, sumsq_nil]
    norm_num
  have h2 : sumsq (envJ.embed "q") ≠ 0 := by
    rw [show envJ.embed "q" = [(1 : ℝ), 0, 0, 0] from rfl]
    simp only [sumsq_cons, sumsq_nil]
    norm_num
  exact ⟨h1, h2, search_result_fields envJ "q" 5 h1 h2⟩

end MSRag
